import Mathlib

/-!
# istio-config-validator: test-case parser

Shallow embedding of `internal/pkg/parser/testcase.go`: the declaration model
(`TestCase`, `Request`, `Input`, `Destination`, `Port`), the combinatorial
expansion `Request.Unfold`, and the directory loader `parseTestCases`.

Conventions of the embedding

* a Go `[]string` is a `List String`; `len(s) == 0` is `s.length = 0`, which
  holds for the nil slice and for the empty slice alike;
* a Go `map[string]string` is an association list of key/value pairs; `Unfold`
  only ever copies the map value, so equality of the association lists gives
  equality of the maps (same keys, same values);
* a Go `error` is an `Option Error` (`none` is the nil error);
* a Go pointer `*T` that the YAML decoder may leave nil is an `Option T`;
* a Go slice result that may be the nil slice is an `Option (List _)`
  (`none` is nil), where the source distinguishes it from `[]T{}`.
-/

namespace Parser

/-- Values of the Go `error` interface that reach this package: the three
package-level sentinels, and errors produced by the file system walk, by
`ioutil.ReadFile` or by `yaml.Unmarshal`, identified by their message. -/
inductive Error where
  | ErrEmptyAuthorityList : Error
  | ErrEmptyMethodList : Error
  | ErrEmptyURIList : Error
  | external (msg : String) : Error
  deriving DecidableEq, Repr

/-- Go `map[string]string`, as the list of its key/value pairs. -/
abbrev Headers := List (String × String)

/-- Port of a given Destination. `Number` is an `int16` in the source; it is only
stored, never computed with. -/
structure Port where
  Number : Int
  deriving DecidableEq, Repr

/-- Destination we should assert. -/
structure Destination where
  Host : String
  Port : Port
  deriving DecidableEq, Repr

/-- Crafted http request present in the test case file. -/
structure Request where
  Authority : List String
  Method : List String
  URI : List String
  Headers : Headers
  deriving DecidableEq, Repr

/-- Data structure which will be used to assert. -/
structure Input where
  Authority : String
  Method : String
  URI : String
  Headers : Headers
  deriving DecidableEq, Repr

/-- API for declaring unit tests; `Request` and `Destination` are pointers. -/
structure TestCase where
  Description : String
  Request : Option Request
  Destination : Option Destination
  deriving DecidableEq, Repr

/-- List of TestCase, as decoded from one file (`[]*TestCase`). -/
structure TestCaseYAML where
  TestCases : List (Option TestCase)
  deriving DecidableEq, Repr

/-- Body of the innermost loop of `Unfold`: `for _, uri := range r.URI`,
appending one `Input` to `out` per uri. -/
def unfoldURI (r : Request) (auth method : String) (out : List Input) : List Input :=
  r.URI.foldl
    (fun out uri =>
      out ++ [{ Authority := auth, Method := method, URI := uri, Headers := r.Headers }])
    out

/-- Middle loop of `Unfold`: `for _, method := range r.Method`. -/
def unfoldMethod (r : Request) (auth : String) (out : List Input) : List Input :=
  r.Method.foldl (fun out method => unfoldURI r auth method out) out

/-- Outer loop of `Unfold`: `for _, auth := range r.Authority`. -/
def unfoldAuthority (r : Request) (out : List Input) : List Input :=
  r.Authority.foldl (fun out auth => unfoldMethod r auth out) out

/-- `func (r *Request) Unfold() ([]Input, error)`: both components of the Go
result are returned, the slice first, the error second. -/
def Request.Unfold (r : Request) : List Input × Option Error :=
  let out : List Input := []
  if r.Authority.length = 0 then
    (out, some Error.ErrEmptyAuthorityList)
  else if r.Method.length = 0 then
    (out, some Error.ErrEmptyMethodList)
  else if r.URI.length = 0 then
    (out, some Error.ErrEmptyURIList)
  else
    (unfoldAuthority r out, none)

/-- One invocation of the callback that `parseTestCases` hands to
`filepath.Walk`, as the outcomes of the external calls made for that path: the
`err` argument supplied by the walk, `info.IsDir()`, and the result of
`ioutil.ReadFile(path)`. -/
structure WalkEntry where
  err : Option Error
  IsDir : Bool
  ReadFile : Except Error String

/-- The anonymous `func(path string, info os.FileInfo, err error) error` of
`parseTestCases`. The captured variable `out` is threaded explicitly; the
decoder `yaml.Unmarshal` into a fresh `&TestCaseYAML{}` is the parameter
`Unmarshal`. -/
def walkFn (Unmarshal : String → Except Error TestCaseYAML)
    (out : List (Option TestCase)) (e : WalkEntry) : List (Option TestCase) × Option Error :=
  match e.err with
  | some err => (out, some err)
  | none =>
    if e.IsDir then
      (out, none)
    else
      match e.ReadFile with
      | .error err => (out, some err)
      | .ok fileContet =>
        match Unmarshal fileContet with
        | .error err => (out, some err)
        | .ok yamlFile =>
          if yamlFile.TestCases.length = 0 then
            (out, none)
          else
            (out ++ yamlFile.TestCases, none)

/-- The part of `filepath.Walk` that `parseTestCases` relies on: the callback is
invoked once per entry, in traversal order, and the first non-nil error it
returns stops the walk and is returned. (`filepath.SkipDir` needs no case: the
callback only returns errors it received from the walk, from `ReadFile` or from
`Unmarshal`, and none of them produces that sentinel.) -/
def Walk {σ : Type} (fn : σ → WalkEntry → σ × Option Error) :
    σ → List WalkEntry → σ × Option Error
  | s, [] => (s, none)
  | s, e :: es =>
    match fn s e with
    | (s', some err) => (s', some err)
    | (s', none) => Walk fn s' es

/-- `func parseTestCases(rootDir string) ([]*TestCase, error)`, over the
traversal of `rootDir`. The first component is `none` for the nil slice. -/
def parseTestCases (Unmarshal : String → Except Error TestCaseYAML)
    (entries : List WalkEntry) : Option (List (Option TestCase)) × Option Error :=
  let out : List (Option TestCase) := []
  match Walk (walkFn Unmarshal) out entries with
  | (_, some err) => (none, some err)
  | (out, none) => (some out, none)

/-- Specification-side reading of one traversal entry: a directory contributes
nothing, a file yields either an error (traversal, read or deserialization) or
its list of test cases in file-declared order. -/
def entryOutcome (Unmarshal : String → Except Error TestCaseYAML) (e : WalkEntry) :
    Except Error (List (Option TestCase)) :=
  match e.err with
  | some err => .error err
  | none =>
    if e.IsDir then .ok []
    else
      match e.ReadFile with
      | .error err => .error err
      | .ok content =>
        match Unmarshal content with
        | .error err => .error err
        | .ok y => .ok y.TestCases

/-- Specification-side: the test cases an entry contributes to the aggregate. -/
def entryCases (Unmarshal : String → Except Error TestCaseYAML) (e : WalkEntry) :
    List (Option TestCase) :=
  match entryOutcome Unmarshal e with
  | .ok tcs => tcs
  | .error _ => []

/-- Specification-side: the error an entry yields, if any. -/
def entryError (Unmarshal : String → Except Error TestCaseYAML) (e : WalkEntry) :
    Option Error :=
  match entryOutcome Unmarshal e with
  | .ok _ => none
  | .error err => some err

/-- The combinations of one `Request` in nested order: authority outer, method
middle, uri inner. -/
def product (r : Request) : List Input :=
  r.Authority.flatMap fun a =>
    r.Method.flatMap fun m =>
      r.URI.map fun u => { Authority := a, Method := m, URI := u, Headers := r.Headers }

/-- Sample test case used by the concrete evaluations of the loader. -/
def sampleCase (description : String) : Option TestCase :=
  some { Description := description
         Request := some ⟨["a.com"], ["GET"], ["/x"], []⟩
         Destination := some ⟨"svc.default.svc.cluster.local", ⟨80⟩⟩ }

/-- Sample decoder used by the concrete evaluations of the loader: the content
`two` holds two test cases, `one` holds one, `bad` is malformed, and anything
else decodes to a file without test cases. -/
def sampleUnmarshal (content : String) : Except Error TestCaseYAML :=
  if content = "two" then .ok ⟨[sampleCase "first", sampleCase "second"]⟩
  else if content = "one" then .ok ⟨[sampleCase "third"]⟩
  else if content = "bad" then .error (Error.external "yaml: unmarshal errors")
  else .ok ⟨[]⟩

/-! ## Loops as list operations -/

theorem foldl_append_eq {α β : Type} (f : α → List β) (l : List α) (acc : List β) :
    l.foldl (fun out a => out ++ f a) acc = acc ++ l.flatMap f := by
  induction l generalizing acc with
  | nil => simp
  | cons a l ih => simp [List.foldl_cons, ih, List.flatMap_cons, List.append_assoc]

theorem unfoldURI_eq (r : Request) (auth method : String) (out : List Input) :
    unfoldURI r auth method out =
      out ++ r.URI.map fun u =>
        { Authority := auth, Method := method, URI := u, Headers := r.Headers } := by
  unfold unfoldURI
  have h := foldl_append_eq
    (fun u => [({ Authority := auth, Method := method, URI := u, Headers := r.Headers } : Input)])
    r.URI out
  rw [h]
  congr 1
  induction r.URI with
  | nil => rfl
  | cons u us ih => simp [List.flatMap_cons, ih]

theorem unfoldMethod_eq (r : Request) (auth : String) (out : List Input) :
    unfoldMethod r auth out =
      out ++ r.Method.flatMap fun m => r.URI.map fun u =>
        { Authority := auth, Method := m, URI := u, Headers := r.Headers } := by
  unfold unfoldMethod
  simp only [unfoldURI_eq]
  exact foldl_append_eq _ _ _

theorem unfoldAuthority_eq (r : Request) (out : List Input) :
    unfoldAuthority r out = out ++ product r := by
  unfold unfoldAuthority product
  simp only [unfoldMethod_eq]
  exact foldl_append_eq _ _ _

theorem Unfold_ok (r : Request) (hA : r.Authority ≠ []) (hM : r.Method ≠ [])
    (hU : r.URI ≠ []) : r.Unfold = (product r, none) := by
  have a : ¬ r.Authority.length = 0 := by simpa [List.length_eq_zero] using hA
  have m : ¬ r.Method.length = 0 := by simpa [List.length_eq_zero] using hM
  have u : ¬ r.URI.length = 0 := by simpa [List.length_eq_zero] using hU
  simp [Request.Unfold, a, m, u, unfoldAuthority_eq]

theorem Unfold_authority_nil (r : Request) (hA : r.Authority = []) :
    r.Unfold = ([], some Error.ErrEmptyAuthorityList) := by
  simp [Request.Unfold, hA]

theorem Unfold_method_nil (r : Request) (hA : r.Authority ≠ []) (hM : r.Method = []) :
    r.Unfold = ([], some Error.ErrEmptyMethodList) := by
  have a : ¬ r.Authority.length = 0 := by simpa [List.length_eq_zero] using hA
  simp [Request.Unfold, a, hM]

theorem Unfold_uri_nil (r : Request) (hA : r.Authority ≠ []) (hM : r.Method ≠ [])
    (hU : r.URI = []) : r.Unfold = ([], some Error.ErrEmptyURIList) := by
  have a : ¬ r.Authority.length = 0 := by simpa [List.length_eq_zero] using hA
  have m : ¬ r.Method.length = 0 := by simpa [List.length_eq_zero] using hM
  simp [Request.Unfold, a, m, hU]

/-! ## Blocks of equal length -/

theorem length_flatMap_const {α β : Type} (f : α → List β) (n : Nat) (l : List α)
    (hf : ∀ a ∈ l, (f a).length = n) : (l.flatMap f).length = l.length * n := by
  induction l with
  | nil => simp
  | cons a l ih =>
    have h1 : (f a).length = n := hf a (List.mem_cons_self a l)
    have h2 : (l.flatMap f).length = l.length * n :=
      ih fun b hb => hf b (List.mem_cons_of_mem a hb)
    simp only [List.flatMap_cons, List.length_append, List.length_cons, h1, h2]
    ring

theorem getElem?_flatMap_const {α β : Type} (f : α → List β) (n : Nat) (l : List α)
    (hf : ∀ a ∈ l, (f a).length = n) (i q : Nat) (hq : q < n) :
    (l.flatMap f)[i * n + q]? = (l[i]?).bind fun a => (f a)[q]? := by
  induction l generalizing i with
  | nil => simp
  | cons a l ih =>
    have h1 : (f a).length = n := hf a (List.mem_cons_self a l)
    have h2 := ih fun b hb => hf b (List.mem_cons_of_mem a hb)
    cases i with
    | zero =>
      simp only [List.flatMap_cons, Nat.zero_mul, Nat.zero_add]
      rw [List.getElem?_append_left (by omega)]
      simp
    | succ i =>
      simp only [List.flatMap_cons]
      rw [List.getElem?_append_right (by rw [h1, Nat.succ_mul]; omega)]
      have e : (i + 1) * n + q - (f a).length = i * n + q := by
        rw [h1, Nat.succ_mul]; omega
      rw [e, h2 i]
      simp


theorem length_product (r : Request) :
    (product r).length = r.Authority.length * r.Method.length * r.URI.length := by
  unfold product
  rw [length_flatMap_const _ (r.Method.length * r.URI.length)]
  · ring
  · intro a _
    rw [length_flatMap_const _ r.URI.length]
    intro m _
    simp

theorem getElem?_product (r : Request) (i j k : Nat) (hj : j < r.Method.length)
    (hk : k < r.URI.length) :
    (product r)[i * r.Method.length * r.URI.length + j * r.URI.length + k]? =
      (r.Authority[i]?).bind fun a => (r.Method[j]?).bind fun m => (r.URI[k]?).map fun u =>
        { Authority := a, Method := m, URI := u, Headers := r.Headers } := by
  have hlt : j * r.URI.length + k < r.Method.length * r.URI.length := by
    have h1 : (j + 1) * r.URI.length ≤ r.Method.length * r.URI.length :=
      Nat.mul_le_mul_right _ hj
    rw [Nat.succ_mul] at h1
    omega
  have hidx : i * r.Method.length * r.URI.length + j * r.URI.length + k =
      i * (r.Method.length * r.URI.length) + (j * r.URI.length + k) := by ring
  unfold product
  rw [hidx, getElem?_flatMap_const _ (r.Method.length * r.URI.length) _ _ i _ hlt]
  · congr 1
    funext a
    rw [getElem?_flatMap_const _ r.URI.length _ _ j k hk]
    · congr 1
      funext m
      simp
    · intro m _
      simp
  · intro a _
    rw [length_flatMap_const _ r.URI.length]
    intro m _
    simp

theorem mem_product (r : Request) (inp : Input) :
    inp ∈ product r ↔
      inp.Authority ∈ r.Authority ∧ inp.Method ∈ r.Method ∧ inp.URI ∈ r.URI ∧
        inp.Headers = r.Headers := by
  unfold product
  simp only [List.mem_flatMap, List.mem_map]
  constructor
  · rintro ⟨a, ha, m, hm, u, hu, rfl⟩
    exact ⟨ha, hm, hu, rfl⟩
  · rintro ⟨ha, hm, hu, hh⟩
    refine ⟨inp.Authority, ha, inp.Method, hm, inp.URI, hu, ?_⟩
    cases inp
    simp_all

/-! ## Unfold -/

/-- C1 (order determinism): when the authority, method and uri lists of a
request are non-empty and `i`, `j`, `k` index them, the input at flat index
`i*len(M)*len(U) + j*len(U) + k` of the sequence returned by `Unfold` has
authority `A[i]`, method `M[j]` and uri `U[k]`. -/
theorem Unfold_index (r : Request) (i j k : Nat)
    (hA : r.Authority ≠ []) (hM : r.Method ≠ []) (hU : r.URI ≠ [])
    (hi : i < r.Authority.length) (hj : j < r.Method.length) (hk : k < r.URI.length) :
    ∃ inp : Input,
      r.Unfold.1[i * r.Method.length * r.URI.length + j * r.URI.length + k]? = some inp ∧
        inp.Authority = r.Authority[i] ∧ inp.Method = r.Method[j] ∧ inp.URI = r.URI[k] := by
  refine ⟨{ Authority := r.Authority[i], Method := r.Method[j], URI := r.URI[k],
            Headers := r.Headers }, ?_, rfl, rfl, rfl⟩
  rw [Unfold_ok r hA hM hU]
  show (product r)[_]? = _
  rw [getElem?_product r i j k hj hk]
  simp [List.getElem?_eq_getElem, hi, hj, hk]

/-- Witness for C1: two authorities, two methods, one uri, at `i = 1`, `j = 1`,
`k = 0`, which is flat index 3. -/
theorem Unfold_index_witness :
    ∃ inp : Input,
      (Request.Unfold ⟨["a.com", "b.com"], ["GET", "POST"], ["/x"], [("k", "v")]⟩).1[3]?
          = some inp ∧
        inp.Authority = "b.com" ∧ inp.Method = "POST" ∧ inp.URI = "/x" :=
  Unfold_index ⟨["a.com", "b.com"], ["GET", "POST"], ["/x"], [("k", "v")]⟩ 1 1 0
    (by decide) (by decide) (by decide) (by decide) (by decide) (by decide)

/-- C2 (cardinality): when the authority, method and uri lists are non-empty,
`Unfold` returns no error and exactly `len(A)*len(M)*len(U)` inputs, whatever
the headers are. -/
theorem Unfold_cardinality (r : Request)
    (hA : r.Authority ≠ []) (hM : r.Method ≠ []) (hU : r.URI ≠ []) :
    r.Unfold.2 = none ∧
      r.Unfold.1.length = r.Authority.length * r.Method.length * r.URI.length := by
  rw [Unfold_ok r hA hM hU]
  exact ⟨rfl, length_product r⟩

/-- Witness for C2: three authorities, two methods, two uris and two headers
give twelve inputs. -/
theorem Unfold_cardinality_witness :
    (Request.Unfold ⟨["a", "b", "c"], ["GET", "PUT"], ["/", "/y"],
        [("x-a", "1"), ("x-b", "2")]⟩).2 = none ∧
      (Request.Unfold ⟨["a", "b", "c"], ["GET", "PUT"], ["/", "/y"],
        [("x-a", "1"), ("x-b", "2")]⟩).1.length = 3 * 2 * 2 :=
  Unfold_cardinality ⟨["a", "b", "c"], ["GET", "PUT"], ["/", "/y"],
    [("x-a", "1"), ("x-b", "2")]⟩ (by decide) (by decide) (by decide)

/-- C3: a request whose authority list is empty makes `Unfold` return
`ErrEmptyAuthorityList` together with an empty sequence, whatever the method
list, the uri list and the headers contain. -/
theorem Unfold_empty_authority (r : Request) (hA : r.Authority = []) :
    r.Unfold = ([], some Error.ErrEmptyAuthorityList) :=
  Unfold_authority_nil r hA

/-- Witness for C3: empty authority with populated method, uri and headers, and
the request with every field empty. -/
theorem Unfold_empty_authority_witness :
    Request.Unfold ⟨[], ["GET"], ["/x"], [("k", "v")]⟩
        = ([], some Error.ErrEmptyAuthorityList) ∧
      Request.Unfold ⟨[], [], [], []⟩ = ([], some Error.ErrEmptyAuthorityList) :=
  ⟨Unfold_empty_authority ⟨[], ["GET"], ["/x"], [("k", "v")]⟩ rfl,
   Unfold_empty_authority ⟨[], [], [], []⟩ rfl⟩

/-- C4 (first failing check wins): with a non-empty authority list and an empty
method list `Unfold` returns `ErrEmptyMethodList` and an empty sequence,
whatever the uri list is; with non-empty authority and method lists and an
empty uri list it returns `ErrEmptyURIList` and an empty sequence. -/
theorem Unfold_first_failing_check (r : Request) (hA : r.Authority ≠ []) :
    (r.Method = [] → r.Unfold = ([], some Error.ErrEmptyMethodList)) ∧
      (r.Method ≠ [] → r.URI = [] → r.Unfold = ([], some Error.ErrEmptyURIList)) :=
  ⟨Unfold_method_nil r hA, Unfold_uri_nil r hA⟩

/-- Witness for C4: an empty method list with an empty and with a non-empty uri
list, and an empty uri list alone. -/
theorem Unfold_first_failing_check_witness :
    Request.Unfold ⟨["a.com"], [], [], []⟩ = ([], some Error.ErrEmptyMethodList) ∧
      Request.Unfold ⟨["a.com"], [], ["/x"], []⟩ = ([], some Error.ErrEmptyMethodList) ∧
      Request.Unfold ⟨["a.com"], ["GET"], [], []⟩ = ([], some Error.ErrEmptyURIList) :=
  ⟨(Unfold_first_failing_check ⟨["a.com"], [], [], []⟩ (by decide)).1 rfl,
   (Unfold_first_failing_check ⟨["a.com"], [], ["/x"], []⟩ (by decide)).1 rfl,
   (Unfold_first_failing_check ⟨["a.com"], ["GET"], [], []⟩ (by decide)).2 (by decide) rfl⟩

/-- C5: `Unfold` returns a non-nil error exactly when at least one of the
authority, method and uri lists is empty, and its error is never anything but
nil or one of the three sentinels `ErrEmptyAuthorityList`, `ErrEmptyMethodList`,
`ErrEmptyURIList`. -/
theorem Unfold_error_iff (r : Request) :
    (r.Unfold.2 ≠ none ↔ (r.Authority = [] ∨ r.Method = [] ∨ r.URI = [])) ∧
      (r.Unfold.2 = none ∨ r.Unfold.2 = some Error.ErrEmptyAuthorityList ∨
        r.Unfold.2 = some Error.ErrEmptyMethodList ∨
        r.Unfold.2 = some Error.ErrEmptyURIList) := by
  by_cases hA : r.Authority = []
  · simp [Unfold_authority_nil r hA, hA]
  · by_cases hM : r.Method = []
    · simp [Unfold_method_nil r hA hM, hM]
    · by_cases hU : r.URI = []
      · simp [Unfold_uri_nil r hA hM hU, hU]
      · simp [Unfold_ok r hA hM hU, hA, hM, hU]

/-- C6 (header propagation): when `Unfold` succeeds, every input of the
returned sequence carries the headers of the request. -/
theorem Unfold_headers (r : Request) (hok : r.Unfold.2 = none) :
    ∀ inp ∈ r.Unfold.1, inp.Headers = r.Headers := by
  by_cases hA : r.Authority = []
  · simp [Unfold_authority_nil r hA] at hok
  · by_cases hM : r.Method = []
    · simp [Unfold_method_nil r hA hM] at hok
    · by_cases hU : r.URI = []
      · simp [Unfold_uri_nil r hA hM hU] at hok
      · rw [Unfold_ok r hA hM hU]
        intro inp hin
        exact ((mem_product r inp).1 hin).2.2.2

/-- Witness for C6: a request with two headers; its two inputs both carry
them. -/
theorem Unfold_headers_witness :
    (Request.Unfold ⟨["a.com"], ["GET", "POST"], ["/x"], [("x-a", "1"), ("x-b", "2")]⟩).1.length
        = 2 ∧
      ∀ inp ∈ (Request.Unfold
          ⟨["a.com"], ["GET", "POST"], ["/x"], [("x-a", "1"), ("x-b", "2")]⟩).1,
        inp.Headers = [("x-a", "1"), ("x-b", "2")] :=
  ⟨rfl, Unfold_headers ⟨["a.com"], ["GET", "POST"], ["/x"], [("x-a", "1"), ("x-b", "2")]⟩ rfl⟩

/-- C7: on the request of the doc comment of `Unfold` (authority
`www.example.com`, `example.com`, method `GET`, `OPTIONS`, URI and headers left
unset) the code returns the empty sequence with `ErrEmptyURIList`, and so not
the four inputs that the doc comment lists for it. -/
theorem Unfold_docstring_example_fails :
    Request.Unfold ⟨["www.example.com", "example.com"], ["GET", "OPTIONS"], [], []⟩
        = ([], some Error.ErrEmptyURIList) ∧
      Request.Unfold ⟨["www.example.com", "example.com"], ["GET", "OPTIONS"], [], []⟩ ≠
        ([⟨"www.example.com", "GET", "", []⟩, ⟨"www.example.com", "OPTIONS", "", []⟩,
          ⟨"example.com", "GET", "", []⟩, ⟨"example.com", "OPTIONS", "", []⟩], none) :=
  ⟨rfl, by decide⟩

/-- C8 (example of the specification): for authority `a.com`, `b.com`, method
`GET`, `POST`, uri `/x` and any headers `H`, `Unfold` returns no error and the
four inputs `(a.com,GET,/x,H)`, `(a.com,POST,/x,H)`, `(b.com,GET,/x,H)`,
`(b.com,POST,/x,H)` in that order. -/
theorem Unfold_spec_example (H : Headers) :
    Request.Unfold ⟨["a.com", "b.com"], ["GET", "POST"], ["/x"], H⟩ =
      ([⟨"a.com", "GET", "/x", H⟩, ⟨"a.com", "POST", "/x", H⟩,
        ⟨"b.com", "GET", "/x", H⟩, ⟨"b.com", "POST", "/x", H⟩], none) :=
  rfl

/-! ## Loader -/

theorem walkFn_of_ok (U : String → Except Error TestCaseYAML) (out : List (Option TestCase))
    (e : WalkEntry) (h : entryError U e = none) :
    walkFn U out e = (out ++ entryCases U e, none) := by
  unfold entryError entryCases entryOutcome at *
  unfold walkFn
  cases he : e.err with
  | some err => simp [he] at h
  | none =>
    simp only [he] at h ⊢
    by_cases hd : e.IsDir = true
    · simp [hd]
    · simp only [hd, if_false] at h ⊢
      cases hr : e.ReadFile with
      | error err => simp [hr] at h
      | ok content =>
        simp only [hr] at h ⊢
        cases hu : U content with
        | error err => simp [hu] at h
        | ok y =>
          simp only [hu]
          by_cases hz : y.TestCases.length = 0
          · have : y.TestCases = [] := List.length_eq_zero.1 hz
            simp [this]
          · simp [hz]

theorem walkFn_of_error (U : String → Except Error TestCaseYAML)
    (out : List (Option TestCase)) (e : WalkEntry) (err : Error)
    (h : entryError U e = some err) : walkFn U out e = (out, some err) := by
  unfold entryError entryOutcome at h
  unfold walkFn
  cases he : e.err with
  | some err0 =>
    simp only [he] at h ⊢
    simpa using h
  | none =>
    simp only [he] at h ⊢
    by_cases hd : e.IsDir = true
    · simp [hd] at h
    · simp only [hd, if_false] at h ⊢
      cases hr : e.ReadFile with
      | error err0 =>
        simp only [hr] at h ⊢
        simpa using h
      | ok content =>
        simp only [hr] at h ⊢
        cases hu : U content with
        | error err0 =>
          simp only [hu] at h ⊢
          simpa using h
        | ok y => simp [hu] at h

theorem entryCases_of_IsDir (U : String → Except Error TestCaseYAML) (e : WalkEntry)
    (h : entryError U e = none) (hd : e.IsDir = true) : entryCases U e = [] := by
  unfold entryError entryCases entryOutcome at *
  cases he : e.err with
  | some err => simp [he] at h
  | none => simp [hd]

theorem Walk_walkFn_of_ok (U : String → Except Error TestCaseYAML) (entries : List WalkEntry)
    (out : List (Option TestCase)) (h : ∀ e ∈ entries, entryError U e = none) :
    Walk (walkFn U) out entries = (out ++ entries.flatMap (entryCases U), none) := by
  induction entries generalizing out with
  | nil => simp [Walk]
  | cons e es ih =>
    have h1 := walkFn_of_ok U out e (h e (List.mem_cons_self e es))
    have h2 := ih (out ++ entryCases U e) fun x hx => h x (List.mem_cons_of_mem e hx)
    simp [Walk, h1, h2, List.flatMap_cons, List.append_assoc]

theorem Walk_walkFn_of_error (U : String → Except Error TestCaseYAML)
    (front back : List WalkEntry) (e : WalkEntry) (err : Error) (out : List (Option TestCase))
    (hfront : ∀ x ∈ front, entryError U x = none) (he : entryError U e = some err) :
    Walk (walkFn U) out (front ++ e :: back) =
      (out ++ front.flatMap (entryCases U), some err) := by
  induction front generalizing out with
  | nil => simp [Walk, walkFn_of_error U out e err he]
  | cons x xs ih =>
    have h1 := walkFn_of_ok U out x (hfront x (List.mem_cons_self x xs))
    have h2 := ih (out ++ entryCases U x) fun y hy => hfront y (List.mem_cons_of_mem x hy)
    simp [Walk, h1, h2, List.flatMap_cons, List.append_assoc]

theorem exists_first_error (U : String → Except Error TestCaseYAML) (entries : List WalkEntry)
    (h : ∃ e ∈ entries, entryError U e ≠ none) :
    ∃ front e back err, entries = front ++ e :: back ∧
      (∀ x ∈ front, entryError U x = none) ∧ entryError U e = some err := by
  induction entries with
  | nil => simp at h
  | cons x xs ih =>
    cases hx : entryError U x with
    | some err => exact ⟨[], x, xs, err, rfl, by simp, hx⟩
    | none =>
      have h' : ∃ e ∈ xs, entryError U e ≠ none := by
        obtain ⟨e, hmem, hne⟩ := h
        rcases List.mem_cons.1 hmem with rfl | hmem
        · exact absurd hx hne
        · exact ⟨e, hmem, hne⟩
      obtain ⟨front, e, back, err, hsplit, hfront, he⟩ := ih h'
      refine ⟨x :: front, e, back, err, by simp [hsplit], ?_, he⟩
      intro y hy
      rcases List.mem_cons.1 hy with rfl | hy
      · exact hx
      · exact hfront y hy

theorem flatMap_files (U : String → Except Error TestCaseYAML) (entries : List WalkEntry)
    (h : ∀ e ∈ entries, entryError U e = none) :
    (entries.filter fun e => !e.IsDir).flatMap (entryCases U) =
      entries.flatMap (entryCases U) := by
  induction entries with
  | nil => rfl
  | cons e es ih =>
    have h2 := ih fun x hx => h x (List.mem_cons_of_mem e hx)
    by_cases hd : e.IsDir = true
    · have h0 := entryCases_of_IsDir U e (h e (List.mem_cons_self e es)) hd
      simp [List.filter_cons, hd, h0, h2, List.flatMap_cons]
    · simp [List.filter_cons, hd, h2, List.flatMap_cons]

/-- C9 (loader aggregation): over the traversal-ordered list of entries, when
no entry yields an error `parseTestCases` returns no error and exactly the
concatenation, in traversal order, of the test-case lists of the file entries,
each in file-declared order; directories are left out, and a file with zero
test cases contributes the empty list. -/
theorem parseTestCases_aggregate (U : String → Except Error TestCaseYAML)
    (entries : List WalkEntry) (h : ∀ e ∈ entries, entryError U e = none) :
    parseTestCases U entries =
      (some ((entries.filter fun e => !e.IsDir).flatMap (entryCases U)), none) := by
  unfold parseTestCases
  simp [Walk_walkFn_of_ok U entries [] h, flatMap_files U entries h]

/-- Witness for C9: a root directory holding a file with two test cases and a
file with none loads to exactly the two test cases. -/
theorem parseTestCases_aggregate_witness :
    parseTestCases sampleUnmarshal
        [⟨none, true, .error (Error.external "is a directory")⟩,
         ⟨none, false, .ok "two"⟩, ⟨none, false, .ok "empty"⟩]
      = (some [sampleCase "first", sampleCase "second"], none) :=
  parseTestCases_aggregate sampleUnmarshal
    [⟨none, true, .error (Error.external "is a directory")⟩,
     ⟨none, false, .ok "two"⟩, ⟨none, false, .ok "empty"⟩]
    (by decide)

/-- C10 (loader abort): when at least one entry of the traversal yields an
error (traversal, read or deserialization), `parseTestCases` returns a non-nil
error and the nil list, never the list of the files parsed before the failure,
whatever the entries before and after it are. -/
theorem parseTestCases_abort (U : String → Except Error TestCaseYAML)
    (entries : List WalkEntry) (h : ∃ e ∈ entries, entryError U e ≠ none) :
    ∃ err, parseTestCases U entries = (none, some err) := by
  obtain ⟨front, e, back, err, hsplit, hfront, he⟩ := exists_first_error U entries h
  refine ⟨err, ?_⟩
  unfold parseTestCases
  simp [hsplit, Walk_walkFn_of_error U front back e err [] hfront he]

/-- Witness for C10: a file with two test cases, then a malformed file, then a
file with one test case; the load yields the decoder's error and no list. -/
theorem parseTestCases_abort_witness :
    ∃ err, parseTestCases sampleUnmarshal
        [⟨none, true, .error (Error.external "is a directory")⟩,
         ⟨none, false, .ok "two"⟩, ⟨none, false, .ok "bad"⟩, ⟨none, false, .ok "one"⟩]
      = (none, some err) :=
  parseTestCases_abort sampleUnmarshal
    [⟨none, true, .error (Error.external "is a directory")⟩,
     ⟨none, false, .ok "two"⟩, ⟨none, false, .ok "bad"⟩, ⟨none, false, .ok "one"⟩]
    ⟨⟨none, false, .ok "bad"⟩, by simp, by decide⟩

/-! ## Membership and multiplicity in the expansion -/

theorem count_uri_block (a m u a' m' : String) (H : Headers) (U : List String) :
    List.count (⟨a, m, u, H⟩ : Input) (U.map fun u' => (⟨a', m', u', H⟩ : Input)) =
      if a' = a ∧ m' = m then List.count u U else 0 := by
  induction U with
  | nil => simp
  | cons x xs ih =>
    simp only [List.map_cons, List.count_cons, ih, beq_iff_eq, Input.mk.injEq]
    by_cases ha : a' = a <;> by_cases hm : m' = m <;> simp [ha, hm]

theorem count_method_block (a m u a' : String) (H : Headers) (M U : List String) :
    List.count (⟨a, m, u, H⟩ : Input)
        (M.flatMap fun m' => U.map fun u' => (⟨a', m', u', H⟩ : Input)) =
      if a' = a then List.count m M * List.count u U else 0 := by
  induction M with
  | nil => simp
  | cons x xs ih =>
    simp only [List.flatMap_cons, List.count_append, List.count_cons, ih, count_uri_block,
      beq_iff_eq]
    by_cases ha : a' = a
    · by_cases hm : x = m
      · simp only [ha, hm, and_self, if_true]
        ring
      · simp [ha, hm]
    · simp [ha]

theorem count_product (r : Request) (a m u : String) :
    List.count (⟨a, m, u, r.Headers⟩ : Input) (product r) =
      List.count a r.Authority * List.count m r.Method * List.count u r.URI := by
  unfold product
  induction r.Authority with
  | nil => simp
  | cons x xs ih =>
    simp only [List.flatMap_cons, List.count_append, List.count_cons, ih, count_method_block,
      beq_iff_eq]
    by_cases ha : x = a
    · simp only [ha, if_true]
      ring
    · simp [ha]

theorem nodup_product_iff (r : Request) (hA : r.Authority ≠ []) (hM : r.Method ≠ [])
    (hU : r.URI ≠ []) :
    (product r).Nodup ↔ r.Authority.Nodup ∧ r.Method.Nodup ∧ r.URI.Nodup := by
  obtain ⟨a0, ha0⟩ := List.exists_mem_of_ne_nil _ hA
  obtain ⟨m0, hm0⟩ := List.exists_mem_of_ne_nil _ hM
  obtain ⟨u0, hu0⟩ := List.exists_mem_of_ne_nil _ hU
  have pa : 0 < List.count a0 r.Authority := List.count_pos_iff.2 ha0
  have pm : 0 < List.count m0 r.Method := List.count_pos_iff.2 hm0
  have pu : 0 < List.count u0 r.URI := List.count_pos_iff.2 hu0
  simp only [List.nodup_iff_count_le_one]
  constructor
  · intro h
    refine ⟨fun a => ?_, fun m => ?_, fun u => ?_⟩
    · have h1 := h ⟨a, m0, u0, r.Headers⟩
      rw [count_product] at h1
      by_contra hc
      have h2 : 2 * 1 * 1 ≤ List.count a r.Authority * List.count m0 r.Method *
          List.count u0 r.URI :=
        Nat.mul_le_mul (Nat.mul_le_mul (by omega) pm) pu
      omega
    · have h1 := h ⟨a0, m, u0, r.Headers⟩
      rw [count_product] at h1
      by_contra hc
      have h2 : 1 * 2 * 1 ≤ List.count a0 r.Authority * List.count m r.Method *
          List.count u0 r.URI :=
        Nat.mul_le_mul (Nat.mul_le_mul pa (by omega)) pu
      omega
    · have h1 := h ⟨a0, m0, u, r.Headers⟩
      rw [count_product] at h1
      by_contra hc
      have h2 : 1 * 1 * 2 ≤ List.count a0 r.Authority * List.count m0 r.Method *
          List.count u r.URI :=
        Nat.mul_le_mul (Nat.mul_le_mul pa pm) (by omega)
      omega
  · rintro ⟨ha, hm, hu⟩ inp
    by_cases hh : inp.Headers = r.Headers
    · have e : inp = ⟨inp.Authority, inp.Method, inp.URI, r.Headers⟩ := by
        cases inp
        simp_all
      rw [e, count_product]
      have h2 : List.count inp.Authority r.Authority * List.count inp.Method r.Method *
          List.count inp.URI r.URI ≤ 1 * 1 * 1 :=
        Nat.mul_le_mul (Nat.mul_le_mul (ha _) (hm _)) (hu _)
      omega
    · have hn : inp ∉ product r := fun hin => hh ((mem_product r inp).1 hin).2.2.2
      rw [List.count_eq_zero_of_not_mem hn]
      omega

/-- C11 (full cartesian product as a set): when the authority, method and uri
lists are non-empty, an input occurs in the sequence returned by `Unfold`
exactly when its authority is in `A`, its method in `M`, its uri in `U` and
its headers are those of the request. -/
theorem Unfold_mem_iff (r : Request)
    (hA : r.Authority ≠ []) (hM : r.Method ≠ []) (hU : r.URI ≠ []) (inp : Input) :
    inp ∈ r.Unfold.1 ↔
      inp.Authority ∈ r.Authority ∧ inp.Method ∈ r.Method ∧ inp.URI ∈ r.URI ∧
        inp.Headers = r.Headers := by
  rw [Unfold_ok r hA hM hU]
  exact mem_product r inp

/-- Witness for C11: the combination `(b.com, GET, /y)` of a request with two
authorities, two methods and two uris, decided through the four conditions. -/
theorem Unfold_mem_iff_witness :
    (⟨"b.com", "GET", "/y", [("k", "v")]⟩ : Input) ∈
        (Request.Unfold ⟨["a.com", "b.com"], ["GET", "POST"], ["/x", "/y"], [("k", "v")]⟩).1 ∧
      (⟨"b.com", "GET", "/y", []⟩ : Input) ∉
        (Request.Unfold ⟨["a.com", "b.com"], ["GET", "POST"], ["/x", "/y"], [("k", "v")]⟩).1 :=
  ⟨(Unfold_mem_iff ⟨["a.com", "b.com"], ["GET", "POST"], ["/x", "/y"], [("k", "v")]⟩
      (by decide) (by decide) (by decide) ⟨"b.com", "GET", "/y", [("k", "v")]⟩).2
      (by decide),
   fun h => absurd
     ((Unfold_mem_iff ⟨["a.com", "b.com"], ["GET", "POST"], ["/x", "/y"], [("k", "v")]⟩
        (by decide) (by decide) (by decide) ⟨"b.com", "GET", "/y", []⟩).1 h).2.2.2
     (by decide)⟩

/-- C12 (no deduplication): when the authority, method and uri lists are
non-empty, the input `(a, m, u, H)` occurs in the returned sequence
`count(a in A) * count(m in M) * count(u in U)` times, and the returned
sequence is free of duplicates exactly when all three lists are. -/
theorem Unfold_count (r : Request)
    (hA : r.Authority ≠ []) (hM : r.Method ≠ []) (hU : r.URI ≠ []) :
    (∀ a m u : String, List.count (⟨a, m, u, r.Headers⟩ : Input) r.Unfold.1 =
        List.count a r.Authority * List.count m r.Method * List.count u r.URI) ∧
      (r.Unfold.1.Nodup ↔ r.Authority.Nodup ∧ r.Method.Nodup ∧ r.URI.Nodup) := by
  rw [Unfold_ok r hA hM hU]
  exact ⟨count_product r, nodup_product_iff r hA hM hU⟩

/-- Witness for C12: the authority `a.com` listed twice gives every one of its
combinations twice, and the expansion has duplicates. -/
theorem Unfold_count_witness :
    List.count (⟨"a.com", "GET", "/x", []⟩ : Input)
        (Request.Unfold ⟨["a.com", "b.com", "a.com"], ["GET"], ["/x"], []⟩).1 = 2 * 1 * 1 ∧
      ¬ (Request.Unfold ⟨["a.com", "b.com", "a.com"], ["GET"], ["/x"], []⟩).1.Nodup :=
  ⟨(Unfold_count ⟨["a.com", "b.com", "a.com"], ["GET"], ["/x"], []⟩
      (by decide) (by decide) (by decide)).1 "a.com" "GET" "/x",
   fun h => absurd
     ((Unfold_count ⟨["a.com", "b.com", "a.com"], ["GET"], ["/x"], []⟩
        (by decide) (by decide) (by decide)).2.1 h).1
     (by decide)⟩

/-- C13 (a successful unfold is never empty): when `Unfold` returns a nil
error the returned sequence has at least one input, and an empty returned
sequence comes with a non-nil error. -/
theorem Unfold_ok_nonempty (r : Request) :
    (r.Unfold.2 = none → 0 < r.Unfold.1.length) ∧ (r.Unfold.1 = [] → r.Unfold.2 ≠ none) := by
  by_cases hA : r.Authority = []
  · simp [Unfold_authority_nil r hA]
  · by_cases hM : r.Method = []
    · simp [Unfold_method_nil r hA hM]
    · by_cases hU : r.URI = []
      · simp [Unfold_uri_nil r hA hM hU]
      · have a : 0 < r.Authority.length := List.length_pos.2 hA
        have m : 0 < r.Method.length := List.length_pos.2 hM
        have u : 0 < r.URI.length := List.length_pos.2 hU
        have hlen : 0 < (product r).length := by
          rw [length_product]
          exact Nat.mul_pos (Nat.mul_pos a m) u
        rw [Unfold_ok r hA hM hU]
        refine ⟨fun _ => hlen, fun hnil => ?_⟩
        simp only at hnil
        rw [hnil] at hlen
        exact absurd hlen (by simp)

/-- Witness for C13: a successful unfold with one input, and the empty result
of a request without uri, which carries `ErrEmptyURIList`. -/
theorem Unfold_ok_nonempty_witness :
    0 < (Request.Unfold ⟨["a.com"], ["GET"], ["/x"], []⟩).1.length ∧
      (Request.Unfold ⟨["a.com"], ["GET"], [], []⟩).2 ≠ none :=
  ⟨(Unfold_ok_nonempty ⟨["a.com"], ["GET"], ["/x"], []⟩).1 rfl,
   (Unfold_ok_nonempty ⟨["a.com"], ["GET"], [], []⟩).2 rfl⟩

/-- C16 (distribution over the authority list): for non-empty authority lists
`A1` and `A2`, non-empty method and uri lists and any headers, the sequence
returned for authority `A1 ++ A2` is the sequence returned for `A1` followed by
the sequence returned for `A2`. -/
theorem Unfold_append_authority (A1 A2 M U : List String) (H : Headers)
    (h1 : A1 ≠ []) (h2 : A2 ≠ []) (hM : M ≠ []) (hU : U ≠ []) :
    (Request.Unfold ⟨A1 ++ A2, M, U, H⟩).1 =
      (Request.Unfold ⟨A1, M, U, H⟩).1 ++ (Request.Unfold ⟨A2, M, U, H⟩).1 := by
  have h12 : A1 ++ A2 ≠ [] := by simp [h1]
  rw [Unfold_ok ⟨A1 ++ A2, M, U, H⟩ h12 hM hU, Unfold_ok ⟨A1, M, U, H⟩ h1 hM hU,
    Unfold_ok ⟨A2, M, U, H⟩ h2 hM hU]
  simp [product, List.flatMap_append]

/-- Witness for C16: authorities `a.com`, `b.com` followed by `c.com`, with two
methods and one uri. -/
theorem Unfold_append_authority_witness :
    (Request.Unfold ⟨["a.com", "b.com"] ++ ["c.com"], ["GET", "POST"], ["/x"], [("k", "v")]⟩).1 =
      (Request.Unfold ⟨["a.com", "b.com"], ["GET", "POST"], ["/x"], [("k", "v")]⟩).1 ++
        (Request.Unfold ⟨["c.com"], ["GET", "POST"], ["/x"], [("k", "v")]⟩).1 :=
  Unfold_append_authority ["a.com", "b.com"] ["c.com"] ["GET", "POST"] ["/x"] [("k", "v")]
    (by decide) (by decide) (by decide) (by decide)

/-- C17 (headers do not influence the expansion): two requests with the same
authority, method and uri lists and arbitrary headers make `Unfold` return the
same error and sequences of the same length whose inputs agree, position by
position, on authority, method and uri. -/
theorem Unfold_headers_irrelevant (A M U : List String) (H1 H2 : Headers) :
    (Request.Unfold ⟨A, M, U, H1⟩).2 = (Request.Unfold ⟨A, M, U, H2⟩).2 ∧
      (Request.Unfold ⟨A, M, U, H1⟩).1.length = (Request.Unfold ⟨A, M, U, H2⟩).1.length ∧
      ∀ n : Nat,
        ((Request.Unfold ⟨A, M, U, H1⟩).1[n]?).map
            (fun inp => (inp.Authority, inp.Method, inp.URI)) =
          ((Request.Unfold ⟨A, M, U, H2⟩).1[n]?).map
            (fun inp => (inp.Authority, inp.Method, inp.URI)) := by
  by_cases hA : A = []
  · simp [Unfold_authority_nil ⟨A, M, U, H1⟩ hA, Unfold_authority_nil ⟨A, M, U, H2⟩ hA]
  · by_cases hM : M = []
    · simp [Unfold_method_nil ⟨A, M, U, H1⟩ hA hM, Unfold_method_nil ⟨A, M, U, H2⟩ hA hM]
    · by_cases hU : U = []
      · simp [Unfold_uri_nil ⟨A, M, U, H1⟩ hA hM hU, Unfold_uri_nil ⟨A, M, U, H2⟩ hA hM hU]
      · rw [Unfold_ok ⟨A, M, U, H1⟩ hA hM hU, Unfold_ok ⟨A, M, U, H2⟩ hA hM hU]
        have hmap : (product ⟨A, M, U, H1⟩).map
              (fun inp => (inp.Authority, inp.Method, inp.URI)) =
            (product ⟨A, M, U, H2⟩).map
              (fun inp => (inp.Authority, inp.Method, inp.URI)) := by
          simp only [product, List.map_flatMap, List.map_map]
          rfl
        refine ⟨rfl, ?_, fun n => ?_⟩
        · simp [length_product]
        · simp only [← List.getElem?_map]
          rw [hmap]

/-! ## Loader: first error and neutral entries -/

theorem Walk_append {σ : Type} (fn : σ → WalkEntry → σ × Option Error) (s : σ)
    (l1 l2 : List WalkEntry) :
    Walk fn s (l1 ++ l2) =
      match Walk fn s l1 with
      | (s', some err) => (s', some err)
      | (s', none) => Walk fn s' l2 := by
  induction l1 generalizing s with
  | nil => simp [Walk]
  | cons e es ih =>
    simp only [List.cons_append, Walk]
    rcases hfn : fn s e with ⟨s', _ | err⟩
    · exact ih s'
    · rfl

theorem walkFn_of_neutral (U : String → Except Error TestCaseYAML)
    (out : List (Option TestCase)) (e : WalkEntry) (h : entryOutcome U e = .ok []) :
    walkFn U out e = (out, none) := by
  have h1 : entryError U e = none := by simp [entryError, h]
  have h2 : entryCases U e = [] := by simp [entryCases, h]
  simpa [h2] using walkFn_of_ok U out e h1

theorem Walk_insert_neutral (U : String → Except Error TestCaseYAML)
    (out : List (Option TestCase)) (front back : List WalkEntry) (e : WalkEntry)
    (h : entryOutcome U e = .ok []) :
    Walk (walkFn U) out (front ++ e :: back) = Walk (walkFn U) out (front ++ back) := by
  rw [Walk_append, Walk_append]
  rcases hw : Walk (walkFn U) out front with ⟨s', _ | err⟩
  · simp [Walk, walkFn_of_neutral U s' e h]
  · simp

/-- C14 (the loader halts on the first error): when some entry of the traversal
yields an error, the traversal splits at its first failing entry, the error
returned by `parseTestCases` is exactly the error of that entry, together with
the nil list, and the outcome is the same whatever entries follow it. -/
theorem parseTestCases_first_error (U : String → Except Error TestCaseYAML)
    (entries : List WalkEntry) (h : ∃ e ∈ entries, entryError U e ≠ none) :
    ∃ front e back err,
      entries = front ++ e :: back ∧ (∀ x ∈ front, entryError U x = none) ∧
        entryError U e = some err ∧ parseTestCases U entries = (none, some err) ∧
        ∀ rest : List WalkEntry, parseTestCases U (front ++ e :: rest) = (none, some err) := by
  obtain ⟨front, e, back, err, hsplit, hfront, he⟩ := exists_first_error U entries h
  have key : ∀ rest : List WalkEntry,
      parseTestCases U (front ++ e :: rest) = (none, some err) := by
    intro rest
    unfold parseTestCases
    simp [Walk_walkFn_of_error U front rest e err [] hfront he]
  exact ⟨front, e, back, err, hsplit, hfront, he, hsplit ▸ key back, key⟩

/-- Witness for C14: a readable file, then an unreadable one, then a malformed
one; the first failing entry is the unreadable file. -/
theorem parseTestCases_first_error_witness :
    ∃ front e back err,
      [(⟨none, false, .ok "two"⟩ : WalkEntry),
        ⟨none, false, .error (Error.external "permission denied")⟩,
        ⟨none, false, .ok "bad"⟩] = front ++ e :: back ∧
        (∀ x ∈ front, entryError sampleUnmarshal x = none) ∧
        entryError sampleUnmarshal e = some err ∧
        parseTestCases sampleUnmarshal
          [⟨none, false, .ok "two"⟩,
            ⟨none, false, .error (Error.external "permission denied")⟩,
            ⟨none, false, .ok "bad"⟩] = (none, some err) ∧
        ∀ rest : List WalkEntry,
          parseTestCases sampleUnmarshal (front ++ e :: rest) = (none, some err) :=
  parseTestCases_first_error sampleUnmarshal
    [⟨none, false, .ok "two"⟩,
      ⟨none, false, .error (Error.external "permission denied")⟩,
      ⟨none, false, .ok "bad"⟩]
    ⟨⟨none, false, .ok "bad"⟩, by simp, by decide⟩

theorem entryOutcome_of_neutral (U : String → Except Error TestCaseYAML) (e : WalkEntry)
    (herr : e.err = none)
    (h : e.IsDir = true ∨
      ∃ content y, e.ReadFile = .ok content ∧ U content = .ok y ∧ y.TestCases = []) :
    entryOutcome U e = .ok [] := by
  unfold entryOutcome
  rcases h with hd | ⟨content, y, hr, hu, hy⟩
  · simp [herr, hd]
  · by_cases hd : e.IsDir = true
    · simp [herr, hd]
    · simp [herr, hd, hr, hu, hy]

/-- C15, as stated for every directory entry, fails: a directory entry that the
walk reports with a traversal error (an unreadable directory), inserted between
two files, turns a load of three test cases into the nil list with that error,
and a tree made of that entry alone does not load to the empty list. -/
theorem parseTestCases_directory_error_not_neutral :
    (⟨some (Error.external "open sub: permission denied"), true,
        .error (Error.external "is a directory")⟩ : WalkEntry).IsDir = true ∧
      parseTestCases sampleUnmarshal
          ([⟨none, false, .ok "two"⟩] ++
            ⟨some (Error.external "open sub: permission denied"), true,
              .error (Error.external "is a directory")⟩ :: [⟨none, false, .ok "one"⟩])
        = (none, some (Error.external "open sub: permission denied")) ∧
      parseTestCases sampleUnmarshal ([⟨none, false, .ok "two"⟩] ++ [⟨none, false, .ok "one"⟩])
        = (some [sampleCase "first", sampleCase "second", sampleCase "third"], none) ∧
      parseTestCases sampleUnmarshal
          ([⟨none, false, .ok "two"⟩] ++
            ⟨some (Error.external "open sub: permission denied"), true,
              .error (Error.external "is a directory")⟩ :: [⟨none, false, .ok "one"⟩])
        ≠ parseTestCases sampleUnmarshal
            ([⟨none, false, .ok "two"⟩] ++ [⟨none, false, .ok "one"⟩]) ∧
      parseTestCases sampleUnmarshal
          [⟨some (Error.external "open sub: permission denied"), true,
            .error (Error.external "is a directory")⟩]
        ≠ (some [], none) :=
  ⟨rfl, rfl, rfl, by decide, by decide⟩

/-- C15 (amended): inserting, at any position of the traversal, an entry that the
walk reports without a traversal error and that is either a directory or a file
that is read and deserializes successfully to zero test cases leaves the list
and the error returned by `parseTestCases` unchanged, and a traversal made only
of such entries loads to the empty list with no error. -/
theorem parseTestCases_neutral (U : String → Except Error TestCaseYAML) :
    (∀ (front back : List WalkEntry) (e : WalkEntry), e.err = none →
        (e.IsDir = true ∨
          ∃ content y, e.ReadFile = .ok content ∧ U content = .ok y ∧ y.TestCases = []) →
        parseTestCases U (front ++ e :: back) = parseTestCases U (front ++ back)) ∧
      (∀ entries : List WalkEntry,
        (∀ e ∈ entries, e.err = none ∧
          (e.IsDir = true ∨
            ∃ content y, e.ReadFile = .ok content ∧ U content = .ok y ∧ y.TestCases = [])) →
        parseTestCases U entries = (some [], none)) := by
  constructor
  · intro front back e herr h
    unfold parseTestCases
    simp only [Walk_insert_neutral U [] front back e (entryOutcome_of_neutral U e herr h)]
  · intro entries h
    have hw : ∀ out, Walk (walkFn U) out entries = (out, none) := by
      induction entries with
      | nil => intro out; simp [Walk]
      | cons e es ih =>
        intro out
        have he := h e (List.mem_cons_self e es)
        have h1 := walkFn_of_neutral U out e (entryOutcome_of_neutral U e he.1 he.2)
        simp [Walk, h1, ih fun x hx => h x (List.mem_cons_of_mem e hx)]
    unfold parseTestCases
    simp [hw []]

/-- Witness for C15 (amended): a file without test cases inserted between two
files, and a tree made of a directory and a file without test cases. -/
theorem parseTestCases_neutral_witness :
    parseTestCases sampleUnmarshal
        ([⟨none, false, .ok "two"⟩] ++ ⟨none, false, .ok "empty"⟩ :: [⟨none, false, .ok "one"⟩])
        = parseTestCases sampleUnmarshal
            ([⟨none, false, .ok "two"⟩] ++ [⟨none, false, .ok "one"⟩]) ∧
      parseTestCases sampleUnmarshal
        [⟨none, true, .error (Error.external "is a directory")⟩, ⟨none, false, .ok "empty"⟩]
        = (some [], none) :=
  ⟨(parseTestCases_neutral sampleUnmarshal).1 [⟨none, false, .ok "two"⟩]
      [⟨none, false, .ok "one"⟩] ⟨none, false, .ok "empty"⟩ rfl
      (Or.inr ⟨"empty", ⟨[]⟩, rfl, rfl, rfl⟩),
   (parseTestCases_neutral sampleUnmarshal).2
      [⟨none, true, .error (Error.external "is a directory")⟩, ⟨none, false, .ok "empty"⟩]
      (by
        intro e he
        simp only [List.mem_cons, List.mem_singleton, List.not_mem_nil, or_false] at he
        rcases he with rfl | rfl
        · exact ⟨rfl, Or.inl rfl⟩
        · exact ⟨rfl, Or.inr ⟨"empty", ⟨[]⟩, rfl, rfl, rfl⟩⟩)⟩

end Parser
